import Mathlib

/-!
Verification of the prompt-generate-validate-repair-substitute pipeline of the
shopify-template-status repository.  Python strings are modelled as `List Char`;
the external text-completion capability is modelled as an oracle supplying the
outcome of each call (`some`/`Except.ok` a response text, `none`/`Except.error`
an exception raised by the call).  File I/O is modelled by the file's text
content together with readability/writability flags.  The scanning loops of
`str.replace`, `re.sub` and `re.findall` consume at least one character per
step, so they are written with a fuel argument instantiated with the string
length by their wrappers; this keeps every definition computable by the kernel.
-/

/-- Whitespace test modelling Python's notion of whitespace (`str.strip`,
`str.isspace`, and the regex class from `re.sub`) for the character set that can
occur in this pipeline: the six ASCII whitespace characters plus the common
one-code-unit Unicode whitespace characters. -/
def isPySpace (c : Char) : Bool :=
  c = ' ' || c = '\t' || c = '\n' || c = '\r' || c = '\x0b' || c = '\x0c' ||
  c = '\x1c' || c = '\x1d' || c = '\x1e' || c = '\x1f' || c = '\x85' || c = '\xa0'

/-- Python `str.strip()`: remove leading and trailing whitespace. -/
def pyStrip (s : List Char) : List Char :=
  ((s.dropWhile isPySpace).reverse.dropWhile isPySpace).reverse

/-- Scanning loop of Python `str.replace` for a non-empty token: at each
position, if the token starts here the replacement is emitted and the scan
resumes after the token, otherwise the character is kept and the scan moves on
by one.  Each step consumes at least one character, so fuel equal to the length
of the scanned string (as supplied by `pyReplace`) never runs out. -/
def replLoop (token content : List Char) : Nat → List Char → List Char
  | _, [] => []
  | 0, l => l
  | fuel + 1, d :: ds =>
      if token.isPrefixOf (d :: ds) then
        content ++ replLoop token content fuel (List.drop (token.length - 1) ds)
      else
        d :: replLoop token content fuel ds

/-- Python `str.replace(token, content)`: replace every non-overlapping
occurrence from left to right; an empty token inserts the replacement before
every character and once more at the end (Python semantics of
`s.replace("", content)`). -/
def pyReplace (s token content : List Char) : List Char :=
  if token = [] then content ++ (s.map (fun c => c :: content)).flatten
  else replLoop token content s.length s

/-- The pattern of the first sanitizer substitution, `` ```json `` . -/
def fenceJson : List Char := "```json".data

/-- The pattern of the second sanitizer substitution, three backticks. -/
def fenceTicks : List Char := "```".data

/-- The backtick character. -/
def tick : Char := Char.ofNat 96

/-- Scanning loop of `re.sub(r"```json\s*", "", s)`: scan left to right;
whenever `` ```json `` starts at the current position, delete it together with
the greedily matched whitespace run after it and resume scanning there. -/
def stripJsonFenceGo : Nat → List Char → List Char
  | _, [] => []
  | 0, l => l
  | fuel + 1, c :: rest =>
      if fenceJson.isPrefixOf (c :: rest) then
        stripJsonFenceGo fuel (List.dropWhile isPySpace (List.drop 6 rest))
      else
        c :: stripJsonFenceGo fuel rest

/-- Model of `re.sub(r"```json\s*", "", s)` as performed first by both
sanitizers. -/
def stripJsonFence (s : List Char) : List Char :=
  stripJsonFenceGo s.length s

/-- Position matched by `re.sub(r"```\s*$", "", s)`: the least index at which
three backticks start such that everything after them is whitespace (so that
`\s*` reaches the end of the string, where `$` matches). -/
def tickFenceIdx (s : List Char) : Option Nat :=
  (List.range s.length).find? (fun i =>
    fenceTicks.isPrefixOf (s.drop i) && (s.drop (i + 3)).all isPySpace)

/-- Model of `re.sub(r"```\s*$", "", s)`: delete from the matched fence (if
any) to the end of the string. -/
def stripTrailingFence (s : List Char) : List Char :=
  match tickFenceIdx s with
  | some i => s.take i
  | none => s

/-- The sources' smart-quote normalization lines were mangled before they
reached this repository: the line `response_text.replace(''', "'").replace(''', "'")`
(and its double-quoted twin in the product script) lexes, in the file as it
stands, as a triple-quoted string literal, so the call actually performed is a
single `str.replace` of this fifteen-character literal by a single quote.  This
is that literal: a comma, a space, a double quote, a single quote, a double
quote, a closing parenthesis, a dot, the word `replace`, and an opening
parenthesis. -/
def mangledQuoteToken : List Char := ", \"'\").replace(".data

namespace Home

/-- Response sanitizer `clean_json_response` of `home_cotent_status.py`, line by
line: remove ```` ```json ```` fences, remove a trailing ```` ``` ```` fence,
apply the two identity `replace('"', '"')` calls, apply the mangled
quote-literal replacement, and strip surrounding whitespace. -/
def clean_json_response (s : List Char) : List Char :=
  let s1 := stripJsonFence s
  let s2 := stripTrailingFence s1
  let s3 := pyReplace (pyReplace s2 ['"'] ['"']) ['"'] ['"']
  let s4 := pyReplace s3 mangledQuoteToken ['\'']
  pyStrip s4

end Home

/-- Number of single-quote characters in a list, as counted by the lookahead of
the product sanitizer's escaping regex. -/
def countSQ (s : List Char) : Nat := s.countP (fun c => c = '\'')

/-- Model of `re.sub(r"(?<!\\)'(?=([^']*'[^']*')*[^']*$)", "\\'", s)` from the
product sanitizer: scanning left to right over the original string, insert a
backslash before every single quote whose original predecessor is not a
backslash and which is followed by an even number of single quotes.  `prev` is
the original character before the scan position. -/
def escQuotes : Option Char → List Char → List Char
  | _, [] => []
  | prev, c :: rest =>
      if c = '\'' ∧ prev ≠ some '\\' ∧ countSQ rest % 2 = 0 then
        '\\' :: '\'' :: escQuotes (some c) rest
      else
        c :: escQuotes (some c) rest

namespace Product

/-- Response sanitizer `clean_json_response` of `product_content_status.py`:
like the home variant but with the single-quote escaping substitution between
the identity double-quote replacements and the mangled quote-literal
replacement. -/
def clean_json_response (s : List Char) : List Char :=
  let s1 := stripJsonFence s
  let s2 := stripTrailingFence s1
  let s3 := pyReplace (pyReplace s2 ['"'] ['"']) ['"'] ['"']
  let s4 := escQuotes none s3
  let s5 := pyReplace s4 mangledQuoteToken ['\'']
  pyStrip s5

end Product

/-- Outcome of the next external completion call in a scheduled sequence of
call outcomes: an empty schedule behaves like a failing call. -/
def callNext : List (Option (List Char)) → Option (List Char) × List (Option (List Char))
  | [] => (none, [])
  | r :: rest => (r, rest)

/-- Retry loop of `prompt_gpt` (identical in both scripts): up to the given
number of attempts, perform one completion call per attempt; on the first
successful call return the stripped message content; on a failing non-final
attempt continue; on a failing final attempt re-raise the exception.  The pair
also returns the number of completion calls consumed.  When the attempt budget
is zero the Python loop body never runs and the function falls through
returning `None`, modelled by `Except.ok none`. -/
def promptGptGo : Nat → List (Option (List Char)) → Except Unit (Option (List Char)) × Nat
  | 0, _ => (Except.ok none, 0)
  | n + 1, sched =>
      match callNext sched with
      | (some r, _) => (Except.ok (some (pyStrip r)), 1)
      | (none, rest) =>
          if n = 0 then (Except.error (), 1)
          else
            let (res, k) := promptGptGo n rest
            (res, k + 1)

/-- The text-generation client `prompt_gpt` with its schedule of external call
outcomes and its retry budget (3 at every call site). -/
def prompt_gpt (sched : List (Option (List Char))) (max_retries : Nat) :
    Except Unit (Option (List Char)) × Nat :=
  promptGptGo max_retries sched

/-- Scheduled call outcome number `i` (missing entries behave as failures). -/
def schedAt (sched : List (Option (List Char))) (i : Nat) : Option (List Char) :=
  sched.getD i none

/-- Scanning loop of `re.findall(r"<[^>]+>", s)`, counting matches only: at a
`<`, greedily take the run of non-`>` characters; if the run is non-empty and
is followed by a `>` this is a match and scanning resumes after the `>`,
otherwise scanning moves on by one character. -/
def countTagsGo : Nat → List Char → Nat
  | _, [] => 0
  | 0, _ => 0
  | fuel + 1, c :: rest =>
      if c = '<' then
        let run := rest.takeWhile (fun d => d ≠ '>')
        if run ≠ [] ∧ rest.drop run.length ≠ [] then
          1 + countTagsGo fuel (rest.drop (run.length + 1))
        else countTagsGo fuel rest
      else countTagsGo fuel rest

/-- Number of markup tags in a string: `len(re.findall(r"<[^>]+>", s))`. -/
def countTags (s : List Char) : Nat := countTagsGo s.length s

/-- `validate_html_format` (identical in both scripts): when an expected format
is given, is truthy and contains `<`, compare the tag counts of the expected
format and of the generated text; otherwise accept. -/
def validate_html_format (text : List Char) (expected_format : Option (List Char)) : Bool :=
  match expected_format with
  | some f => if f ≠ [] ∧ '<' ∈ f then decide (countTags f ≤ countTags text) else true
  | none => true

/-- Instruction appended to the prompt before the loop of
`generate_with_format_validation` when the expected format contains markup. -/
def importantInstr (f : List Char) : List Char :=
  "\n\nIMPORTANT: Maintain the exact HTML structure from this example: ".data ++ f

/-- Corrective instruction appended to the prompt after a failed validation. -/
def correctiveInstr : List Char :=
  "\n\nPlease maintain the HTML tags structure exactly as shown in the example.".data

/-- Attempt loop of `generate_with_format_validation`: up to the given number
of attempts, call the generation client (one schedule entry per call; `none`
models `prompt_gpt` raising, which propagates); return the result as soon as it
validates; append the corrective instruction after each failed validation; when
the attempts are exhausted return the last result anyway.  The triple is the
final accumulated prompt, the number of generation calls, and the outcome. -/
def gwfvGo (fmt : Option (List Char)) :
    Nat → List Char → List (Option (List Char)) → Nat →
    List Char × Nat × Except Unit (List Char)
  | 0, prompt, _, calls => (prompt, calls, Except.error ())
  | n + 1, prompt, gens, calls =>
      match callNext gens with
      | (none, _) => (prompt, calls + 1, Except.error ())
      | (some r, rest) =>
          if validate_html_format r fmt then (prompt, calls + 1, Except.ok r)
          else if n = 0 then (prompt ++ correctiveInstr, calls + 1, Except.ok r)
          else gwfvGo fmt n (prompt ++ correctiveInstr) rest (calls + 1)

/-- `generate_with_format_validation` of `home_cotent_status.py` (the product
script's copy differs only in the pass-through `max_tokens` argument): append
the structure instruction when the expected format is truthy and contains
markup, then run the validation loop with 3 attempts. -/
def generate_with_format_validation (gens : List (Option (List Char)))
    (prompt : List Char) (expected_format : Option (List Char)) :
    List Char × Nat × Except Unit (List Char) :=
  let p0 := match expected_format with
    | some f => if f ≠ [] ∧ '<' ∈ f then prompt ++ importantInstr f else prompt
    | none => prompt
  gwfvGo expected_format 3 p0 gens 0

/-- `translate_text` (identical in both scripts): one direct completion call
(no retry); on success return the stripped content with every double-quote
character removed; on any exception print and return the input text unchanged. -/
def translate_text (resp : Except Unit (List Char)) (text : List Char) : List Char :=
  match resp with
  | Except.ok r => pyReplace (pyStrip r) ['"'] []
  | Except.error _ => text

namespace Home

/-- `fix_json_with_gpt` of `home_cotent_status.py`: one completion call with
the repair prompt; on success return the sanitized stripped content; on any
exception return the broken input unchanged. -/
def fix_json_with_gpt (resp : Except Unit (List Char)) (broken_json : List Char) :
    List Char :=
  match resp with
  | Except.ok r => Home.clean_json_response (pyStrip r)
  | Except.error _ => broken_json

/-- `replace_in_file` of `home_cotent_status.py`: read the whole file, replace
every occurrence of the placeholder, write the whole file back; any I/O failure
propagates.  Modelled on the file's text with readability/writability flags;
a raised exception is `Except.error`. -/
def replace_in_file (readable writable : Bool) (data placeholder content : List Char) :
    Except Unit (List Char) :=
  if readable then
    if writable then Except.ok (pyReplace data placeholder content)
    else Except.error ()
  else Except.error ()

end Home

namespace Product

/-- `fix_json_with_gpt` of `product_content_status.py`: identical control flow
to the home variant (context and expected keys only shape the repair prompt,
which the call-outcome oracle already accounts for). -/
def fix_json_with_gpt (resp : Except Unit (List Char)) (broken_json context : List Char)
    (expected_keys : List (List Char)) : List Char :=
  match resp with
  | Except.ok r => Product.clean_json_response (pyStrip r)
  | Except.error _ => broken_json

/-- Effect of `replace_in_file` of `product_content_status.py` on the file
content when I/O succeeds: write back only if the placeholder occurs, else warn
and leave the file as it is. -/
def replaceContent (data placeholder content : List Char) : List Char :=
  if placeholder <:+: data then pyReplace data placeholder content else data

/-- `replace_in_file` of `product_content_status.py`: like the home variant but
the whole body is wrapped in `try/except Exception`, which prints and returns
normally, so no failure ever propagates — hence the `Except.ok` codomain. -/
def replace_in_file (readable writable : Bool) (data placeholder content : List Char) :
    Except Unit (List Char) :=
  if readable then
    if writable then Except.ok (replaceContent data placeholder content)
    else Except.ok data
  else Except.ok data

end Product

/-- Association-list lookup modelling Python dict indexing `obj[key]`;
`none` models the `KeyError` raised on a missing key. -/
def lookupKey (key : List Char) : List (List Char × List Char) → Option (List Char)
  | [] => none
  | (k, v) :: rest => if k = key then some v else lookupKey key rest

/-- The `"_retry"` suffix of the second recovery context label. -/
def retryLabel : List Char := "_retry".data

namespace Product

/-- One `JsonObject` unit group of `process_product_generated_content`: its
recovery context label, the expected-keys list passed to the recovery step, the
(json key, placeholder token) pairs substituted in declaration order, and the
generation result the group starts from. -/
structure JsonUnit where
  context : List Char
  expected_keys : List (List Char)
  fields : List (List Char × List Char)
  genResult : List Char

/-- The run of `replace_in_file` calls of one unit group: substitute each
field's value at its placeholder in declaration order; a missing key raises
`KeyError` (`Except.error`) leaving the substitutions already made in place. -/
def substFields (fields : List (List Char × List Char))
    (obj : List (List Char × List Char)) (file : List Char) :
    List Char × Except Unit Unit :=
  match fields with
  | [] => (file, Except.ok ())
  | (key, tok) :: rest =>
      match lookupKey key obj with
      | none => (file, Except.error ())
      | some v => substFields rest obj (replaceContent file tok v)

/-- One unit group of `process_product_generated_content`: parse the sanitized
generation result; on failure run `fix_json_with_gpt` under the unit's context
label and reparse; on failure run it again under the context label with
`"_retry"` appended, against the original generation result, and reparse; if
that also fails raise.  `parse` models `json.loads` returning a string-valued
object (`none` models any parse exception); `fixOracle` gives the completion
outcome of the recovery call made under each context label.  Returns the
recovery context labels used in order, the resulting file content, and whether
an exception escaped. -/
def process_json_unit (parse : List Char → Option (List (List Char × List Char)))
    (fixOracle : List Char → Except Unit (List Char)) (u : JsonUnit)
    (file : List Char) :
    List (List Char) × List Char × Except Unit Unit :=
  match parse (Product.clean_json_response u.genResult) with
  | some obj =>
      let (f, st) := substFields u.fields obj file
      ([], f, st)
  | none =>
      let fixed1 := Product.fix_json_with_gpt (fixOracle u.context) u.genResult
        u.context u.expected_keys
      match parse fixed1 with
      | some obj =>
          let (f, st) := substFields u.fields obj file
          ([u.context], f, st)
      | none =>
          let ctx2 := u.context ++ retryLabel
          let fixed2 := Product.fix_json_with_gpt (fixOracle ctx2) u.genResult
            ctx2 u.expected_keys
          match parse fixed2 with
          | some obj =>
              let (f, st) := substFields u.fields obj file
              ([u.context, ctx2], f, st)
          | none => ([u.context, ctx2], file, Except.error ())

/-- The sequence of unit groups of `process_product_generated_content`: units
run in order, each over the file content left by its predecessors; the first
escaping exception aborts the run, leaving the file as the failing unit left
it. -/
def run_units (parse : List Char → Option (List (List Char × List Char)))
    (fixOracle : List Char → Except Unit (List Char)) :
    List JsonUnit → List Char → List Char × Except Unit Unit
  | [], file => (file, Except.ok ())
  | u :: rest, file =>
      let (_, f, st) := process_json_unit parse fixOracle u file
      match st with
      | Except.ok _ => run_units parse fixOracle rest f
      | Except.error e => (f, Except.error e)

end Product

/-- The string separator join used to state what `str.replace` does: segments
joined by a separator. -/
def joinWith (sep : List Char) : List (List Char) → List Char
  | [] => []
  | [s] => s
  | s :: rest => s ++ sep ++ joinWith sep rest

theorem replLoop_eq_self_of_no_occurrence (token content : List Char) :
    ∀ (fuel : Nat) (l : List Char), ¬ token <:+: l → replLoop token content fuel l = l := by
  intro fuel
  induction fuel with
  | zero => intro l _; cases l <;> rfl
  | succ n ih =>
      intro l h
      cases l with
      | nil => rfl
      | cons d ds =>
          have hp : ¬ token.isPrefixOf (d :: ds) = true := fun hp =>
            h (( List.isPrefixOf_iff_prefix.mp hp).isInfix)
          have hds : ¬ token <:+: ds := fun hh =>
            h ( List.infix_cons_iff.mpr (Or.inr hh))
          simp [replLoop, hp, ih ds hds]

theorem pyReplace_eq_self_of_no_occurrence (data token content : List Char)
    (h : ¬ token <:+: data) : pyReplace data token content = data := by
  have ht : token ≠ [] := by rintro rfl; exact h List.nil_infix
  simp [pyReplace, ht, replLoop_eq_self_of_no_occurrence token content data.length data h]

theorem replLoop_self (token : List Char) (ht : token ≠ []) :
    ∀ (fuel : Nat) (l : List Char), l.length ≤ fuel → replLoop token token fuel l = l := by
  intro fuel
  induction fuel with
  | zero =>
      intro l hl
      cases l with
      | nil => rfl
      | cons d ds => simp at hl
  | succ n ih =>
      intro l hl
      cases l with
      | nil => rfl
      | cons d ds =>
          by_cases hp : token.isPrefixOf (d :: ds) = true
          · obtain ⟨rest, hrest⟩ := List.isPrefixOf_iff_prefix.mp hp
            obtain ⟨t0, ts, rfl⟩ : ∃ t0 ts, token = t0 :: ts := by
              cases token with
              | nil => exact absurd rfl ht
              | cons a b => exact ⟨a, b, rfl⟩
            have hds : ts ++ rest = ds := by
              simpa using congrArg List.tail hrest
            have hdrop : List.drop ((t0 :: ts).length - 1) ds = rest := by
              rw [← hds]
              simpa using List.drop_left ts rest
            have hlen : rest.length ≤ n := by
              have h1 : (d :: ds).length ≤ n + 1 := hl
              have h2 : ds.length = ts.length + rest.length := by
                rw [← hds]; simp
              simp only [List.length_cons] at h1
              omega
            simp only [replLoop, if_pos hp, hdrop, ih rest hlen]
            exact hrest
          · have hds : ds.length ≤ n := by
              simp only [List.length_cons] at hl; omega
            simp [replLoop, hp, ih ds hds]

theorem pyReplace_self (data token : List Char) (ht : token ≠ []) :
    pyReplace data token token = data := by
  simp [pyReplace, ht, replLoop_self token ht data.length data (le_refl _)]

theorem escQuotes_eq_self_of_not_mem :
    ∀ (l : List Char) (prev : Option Char), '\'' ∉ l → escQuotes prev l = l := by
  intro l
  induction l with
  | nil => intro prev _; rfl
  | cons c rest ih =>
      intro prev h
      have hc : ¬ c = '\'' := by
        intro hh
        exact h (by simp [hh])
      have hcond : ¬ (c = '\'' ∧ prev ≠ some '\\' ∧ countSQ rest % 2 = 0) := fun hh => hc hh.1
      have hrest : '\'' ∉ rest := fun hm => h (List.mem_cons_of_mem c hm)
      simp [escQuotes, hcond, ih (some c) hrest]

theorem stripJsonFenceGo_eq_self :
    ∀ (fuel : Nat) (l : List Char), tick ∉ l → stripJsonFenceGo fuel l = l := by
  intro fuel
  induction fuel with
  | zero => intro l _; cases l <;> rfl
  | succ n ih =>
      intro l h
      cases l with
      | nil => rfl
      | cons c rest =>
          have hp : ¬ fenceJson.isPrefixOf (c :: rest) = true := by
            intro hp
            exact h (( List.isPrefixOf_iff_prefix.mp hp).subset (by decide : tick ∈ fenceJson))
          have hrest : tick ∉ rest := fun hm => h (List.mem_cons_of_mem c hm)
          simp [stripJsonFenceGo, hp, ih rest hrest]

theorem stripJsonFence_eq_self (l : List Char) (h : tick ∉ l) : stripJsonFence l = l :=
  stripJsonFenceGo_eq_self l.length l h

theorem tickFenceIdx_eq_none (s : List Char) (h : tick ∉ s) : tickFenceIdx s = none := by
  refine List.find?_eq_none.mpr ?_
  intro i _ htrue
  have h1 : fenceTicks.isPrefixOf (s.drop i) = true := by
    have h' := htrue
    simp only [Bool.and_eq_true] at h'
    exact h'.1
  have h2 : tick ∈ s.drop i :=
    ( List.isPrefixOf_iff_prefix.mp h1).subset (by decide : tick ∈ fenceTicks)
  exact h (List.drop_subset i s h2)

theorem stripTrailingFence_eq_self (s : List Char) (h : tick ∉ s) :
    stripTrailingFence s = s := by
  simp [stripTrailingFence, tickFenceIdx_eq_none s h]

theorem no_occurrence_of_mem_not_mem (t s : List Char) (c : Char) (hct : c ∈ t) (hcs : c ∉ s) :
    ¬ t <:+: s := fun h => hcs (h.subset hct)

theorem dropWhile_dropWhile (p : Char → Bool) :
    ∀ l : List Char, List.dropWhile p (List.dropWhile p l) = List.dropWhile p l := by
  intro l
  induction l with
  | nil => rfl
  | cons c rest ih =>
      by_cases hc : p c = true
      · simp [List.dropWhile_cons, hc, ih]
      · simp [List.dropWhile_cons, hc]

theorem dropWhile_eq_cons_head_false (p : Char → Bool) :
    ∀ (l : List Char) (c : Char) (t : List Char),
      List.dropWhile p l = c :: t → p c = false := by
  intro l
  induction l with
  | nil => intro c t h; simp at h
  | cons a rest ih =>
      intro c t h
      by_cases ha : p a = true
      · rw [List.dropWhile_cons, if_pos ha] at h
        exact ih c t h
      · rw [List.dropWhile_cons, if_neg ha] at h
        cases h
        simpa using ha

theorem pyStrip_prefix_dropWhile (x : List Char) :
    pyStrip x <+: x.dropWhile isPySpace := by
  have h2 : ((x.dropWhile isPySpace).reverse.dropWhile isPySpace) <:+
      (x.dropWhile isPySpace).reverse := List.dropWhile_suffix _
  refine List.reverse_suffix.mp ?_
  simpa [pyStrip] using h2

theorem pyStrip_isInfix (x : List Char) : pyStrip x <:+: x :=
  (pyStrip_prefix_dropWhile x).isInfix.trans (List.dropWhile_suffix isPySpace).isInfix

theorem dropWhile_pyStrip (x : List Char) :
    List.dropWhile isPySpace (pyStrip x) = pyStrip x := by
  cases hz : pyStrip x with
  | nil => rfl
  | cons c t =>
      have hzy : pyStrip x <+: x.dropWhile isPySpace := pyStrip_prefix_dropWhile x
      rw [hz] at hzy
      obtain ⟨rest, hrest⟩ := hzy
      have hy : List.dropWhile isPySpace x = c :: (t ++ rest) := by
        rw [← hrest]; simp
      have hc : isPySpace c = false := dropWhile_eq_cons_head_false isPySpace x c _ hy
      rw [List.dropWhile_cons, if_neg (by simp [hc])]

theorem pyStrip_idem (x : List Char) : pyStrip (pyStrip x) = pyStrip x := by
  have h1 : (pyStrip x).reverse = List.dropWhile isPySpace (x.dropWhile isPySpace).reverse := by
    simp [pyStrip]
  calc pyStrip (pyStrip x)
      = ((pyStrip x).reverse.dropWhile isPySpace).reverse := by
        rw [pyStrip, dropWhile_pyStrip]
    _ = pyStrip x := by
        rw [h1, dropWhile_dropWhile]
        simp [pyStrip]

theorem joinWith_cons_cons (sep : List Char) (d : Char) (s0 : List Char)
    (t0 : List (List Char)) :
    joinWith sep ((d :: s0) :: t0) = d :: joinWith sep (s0 :: t0) := by
  cases t0 <;> simp [joinWith]

theorem joinWith_nil_cons (sep : List Char) (segs : List (List Char)) (h : segs ≠ []) :
    joinWith sep ([] :: segs) = sep ++ joinWith sep segs := by
  cases segs with
  | nil => exact absurd rfl h
  | cons a b => simp [joinWith]

theorem joinWith_head_isPrefix (sep s0 : List Char) (t0 : List (List Char)) :
    ∃ rest, joinWith sep (s0 :: t0) = s0 ++ rest := by
  cases t0 with
  | nil => exact ⟨[], by simp [joinWith]⟩
  | cons a b => exact ⟨sep ++ joinWith sep (a :: b), by simp [joinWith]⟩

theorem replLoop_segments (token content : List Char) (ht : token ≠ []) :
    ∀ (fuel : Nat) (data : List Char), data.length ≤ fuel →
      ∃ segs, segs ≠ [] ∧
        replLoop token content fuel data = joinWith content segs ∧
        data = joinWith token segs ∧
        ∀ s ∈ segs, ¬ token <:+: s := by
  intro fuel
  induction fuel with
  | zero =>
      intro data hl
      cases data with
      | nil =>
          refine ⟨[[]], by simp, by simp [replLoop, joinWith], by simp [joinWith], ?_⟩
          intro s hs
          simp only [List.mem_singleton] at hs
          subst hs
          simpa [ List.infix_nil] using ht
      | cons d ds => simp at hl
  | succ n ih =>
      intro data hl
      cases data with
      | nil =>
          refine ⟨[[]], by simp, by simp [replLoop, joinWith], by simp [joinWith], ?_⟩
          intro s hs
          simp only [List.mem_singleton] at hs
          subst hs
          simpa [ List.infix_nil] using ht
      | cons d ds =>
          by_cases hp : token.isPrefixOf (d :: ds) = true
          · obtain ⟨rest, hrest⟩ := List.isPrefixOf_iff_prefix.mp hp
            obtain ⟨t0, ts, rfl⟩ : ∃ t0 ts, token = t0 :: ts := by
              cases token with
              | nil => exact absurd rfl ht
              | cons a b => exact ⟨a, b, rfl⟩
            have hds : ts ++ rest = ds := by
              simpa using congrArg List.tail hrest
            have hdrop : List.drop ((t0 :: ts).length - 1) ds = rest := by
              rw [← hds]
              simpa using List.drop_left ts rest
            have hlen : rest.length ≤ n := by
              have h2 : ds.length = ts.length + rest.length := by
                rw [← hds]; simp
              simp only [List.length_cons] at hl
              omega
            obtain ⟨segs', hne, hrepl, hdata, hfree⟩ := ih rest hlen
            refine ⟨[] :: segs', by simp, ?_, ?_, ?_⟩
            · simp only [replLoop, if_pos hp, hdrop, hrepl]
              rw [joinWith_nil_cons content segs' hne]
            · rw [joinWith_nil_cons (t0 :: ts) segs' hne, ← hdata]
              exact hrest.symm
            · intro s hs
              rcases List.mem_cons.mp hs with rfl | hs'
              · simpa [ List.infix_nil] using ht
              · exact hfree s hs'
          · have hlds : ds.length ≤ n := by
              simp only [List.length_cons] at hl; omega
            obtain ⟨segs', hne, hrepl, hdata, hfree⟩ := ih ds hlds
            obtain ⟨s0, t0, rfl⟩ : ∃ s0 t0, segs' = s0 :: t0 := by
              cases segs' with
              | nil => exact absurd rfl hne
              | cons a b => exact ⟨a, b, rfl⟩
            refine ⟨(d :: s0) :: t0, by simp, ?_, ?_, ?_⟩
            · simp only [replLoop, if_neg hp, hrepl, joinWith_cons_cons]
            · rw [joinWith_cons_cons, ← hdata]
            · intro s hs
              rcases List.mem_cons.mp hs with rfl | hs'
              · intro hinf
                rcases List.infix_cons_iff.mp hinf with hpre | hinf'
                · obtain ⟨restJ, hJ⟩ := joinWith_head_isPrefix token s0 t0
                  have hs0 : s0 ++ restJ = ds := by
                    rw [hdata, hJ]
                  have hcons : d :: s0 <+: d :: ds := by
                    rw [List.cons_prefix_cons]
                    exact ⟨rfl, ⟨restJ, hs0⟩⟩
                  exact hp ( List.isPrefixOf_iff_prefix.mpr (hpre.trans hcons))
                · exact hfree s0 (List.mem_cons_self s0 t0) hinf'
              · exact hfree s (List.mem_cons_of_mem s0 hs')

theorem pyReplace_segments (data token content : List Char) (ht : token ≠ []) :
    ∃ segs, segs ≠ [] ∧
      pyReplace data token content = joinWith content segs ∧
      data = joinWith token segs ∧
      ∀ s ∈ segs, ¬ token <:+: s := by
  simp only [pyReplace, if_neg ht]
  exact replLoop_segments token content ht data.length data (le_refl _)

theorem countTagsGo_eq_zero :
    ∀ (fuel : Nat) (l : List Char), '<' ∉ l → countTagsGo fuel l = 0 := by
  intro fuel
  induction fuel with
  | zero => intro l _; cases l <;> rfl
  | succ n ih =>
      intro l h
      cases l with
      | nil => rfl
      | cons c rest =>
          have hc : ¬ c = '<' := by
            intro hh
            exact h (by simp [hh])
          have hrest : '<' ∉ rest := fun hm => h (List.mem_cons_of_mem c hm)
          simp [countTagsGo, hc, ih rest hrest]

theorem countTags_eq_zero (f : List Char) (h : '<' ∉ f) : countTags f = 0 :=
  countTagsGo_eq_zero f.length f h

theorem validate_min_tags (r f : List Char) (h : validate_html_format r (some f) = true) :
    countTags f ≤ countTags r := by
  simp only [validate_html_format] at h
  by_cases hc : f ≠ [] ∧ '<' ∈ f
  · rw [if_pos hc] at h
    exact of_decide_eq_true h
  · have hz : countTags f = 0 := by
      rcases Decidable.em (f = []) with rfl | hne
      · rfl
      · refine countTags_eq_zero f ?_
        intro hm
        exact hc ⟨hne, hm⟩
    omega

theorem gwfvGo_calls_le (fmt : Option (List Char)) :
    ∀ (n : Nat) (prompt : List Char) (gens : List (Option (List Char))) (calls : Nat),
      (gwfvGo fmt n prompt gens calls).2.1 ≤ calls + n := by
  intro n
  induction n with
  | zero => intro prompt gens calls; simp [gwfvGo]
  | succ m ih =>
      intro prompt gens calls
      cases gens with
      | nil => simp [gwfvGo, callNext]
      | cons g rest =>
          cases g with
          | none => simp [gwfvGo, callNext]
          | some r =>
              by_cases hv : validate_html_format r fmt = true
              · simp [gwfvGo, callNext, hv]
              · by_cases hm : m = 0
                · subst hm
                  simp [gwfvGo, callNext, hv]
                · have hrec := ih (prompt ++ correctiveInstr) rest (calls + 1)
                  simp only [gwfvGo, callNext, if_neg hv, if_neg hm]
                  omega

theorem gwfvGo_ok_validates (fmt : Option (List Char)) :
    ∀ (n : Nat) (prompt : List Char) (gens : List (Option (List Char))) (calls : Nat)
      (res : List Char),
      (gwfvGo fmt n prompt gens calls).2.2 = Except.ok res →
      (gwfvGo fmt n prompt gens calls).2.1 < calls + n →
      validate_html_format res fmt = true := by
  intro n
  induction n with
  | zero => intro prompt gens calls res hok _; simp [gwfvGo] at hok
  | succ m ih =>
      intro prompt gens calls res hok hlt
      cases gens with
      | nil => simp [gwfvGo, callNext] at hok
      | cons g rest =>
          cases g with
          | none => simp [gwfvGo, callNext] at hok
          | some r =>
              by_cases hv : validate_html_format r fmt = true
              · simp only [gwfvGo, callNext, if_pos hv] at hok
                cases hok
                exact hv
              · by_cases hm : m = 0
                · subst hm
                  simp [gwfvGo, callNext, hv] at hlt
                · simp only [gwfvGo, callNext, if_neg hv, if_neg hm] at hok hlt
                  refine ih (prompt ++ correctiveInstr) rest (calls + 1) res hok ?_
                  omega

/-- Claim C3: the text-generation client `prompt_gpt` makes at most 3 attempts
at the external completion call, returns the stripped text of the first
successful attempt (any returned text counts as success), and propagates the
underlying error to the caller if and only if all 3 attempts fail. -/
theorem C3_prompt_gpt_retry_policy (sched : List (Option (List Char))) :
    (prompt_gpt sched 3).2 ≤ 3 ∧
    (∀ r rest, sched = some r :: rest →
      prompt_gpt sched 3 = (Except.ok (some (pyStrip r)), 1)) ∧
    (∀ r rest, sched = none :: some r :: rest →
      prompt_gpt sched 3 = (Except.ok (some (pyStrip r)), 2)) ∧
    (∀ r rest, sched = none :: none :: some r :: rest →
      prompt_gpt sched 3 = (Except.ok (some (pyStrip r)), 3)) ∧
    ((prompt_gpt sched 3).1 = Except.error () ↔
      schedAt sched 0 = none ∧ schedAt sched 1 = none ∧ schedAt sched 2 = none) := by
  rcases sched with _ | ⟨_ | r1, _ | ⟨_ | r2, _ | ⟨_ | r3, rest⟩⟩⟩ <;>
    simp [prompt_gpt, promptGptGo, callNext, schedAt]

/-- Witness for C3: with a schedule whose first call fails and whose second
call returns text, the client returns the stripped text after two calls. -/
theorem C3_witness :
    prompt_gpt [none, some " ok ".data] 3 = (Except.ok (some (pyStrip " ok ".data)), 2) :=
  (C3_prompt_gpt_retry_policy [none, some " ok ".data]).2.2.1 " ok ".data [] rfl

/-- Claim C5: for every prompt and reference example with k tags (as counted by
the `<...>` pattern), `generate_with_format_validation` makes at most 3
generation calls, returns before the final attempt only with a result holding
at least k tags, and after two failed validations returns the third result
without raising. -/
theorem C5_shape_validation (gens : List (Option (List Char))) (prompt f : List Char) :
    (generate_with_format_validation gens prompt (some f)).2.1 ≤ 3 ∧
    (∀ res, (generate_with_format_validation gens prompt (some f)).2.2 = Except.ok res →
      (generate_with_format_validation gens prompt (some f)).2.1 < 3 →
      countTags f ≤ countTags res) ∧
    (∀ r1 r2 r3 rest, gens = some r1 :: some r2 :: some r3 :: rest →
      validate_html_format r1 (some f) = false →
      validate_html_format r2 (some f) = false →
      (generate_with_format_validation gens prompt (some f)).2.1 = 3 ∧
      (generate_with_format_validation gens prompt (some f)).2.2 = Except.ok r3) := by
  refine ⟨?_, ?_, ?_⟩
  · simpa using gwfvGo_calls_le (some f) 3 _ gens 0
  · intro res hok hlt
    refine validate_min_tags res f ?_
    exact gwfvGo_ok_validates (some f) 3 _ gens 0 res hok (by simpa using hlt)
  · intro r1 r2 r3 rest hg hv1 hv2
    subst hg
    have hv1' : ¬ validate_html_format r1 (some f) = true := by simp [hv1]
    have hv2' : ¬ validate_html_format r2 (some f) = true := by simp [hv2]
    by_cases hv3 : validate_html_format r3 (some f) = true <;>
      simp [generate_with_format_validation, gwfvGo, callNext, hv1', hv2', hv3]

/-- Witness for C5: a reference with one tag, two tagless results, then a third
result returned after exactly 3 generation calls. -/
theorem C5_witness :
    (generate_with_format_validation [some "a".data, some "b".data, some "c".data]
        "p".data (some "<b>x</b>".data)).2.1 = 3 ∧
    (generate_with_format_validation [some "a".data, some "b".data, some "c".data]
        "p".data (some "<b>x</b>".data)).2.2 = Except.ok "c".data :=
  (C5_shape_validation [some "a".data, some "b".data, some "c".data] "p".data
      "<b>x</b>".data).2.2 "a".data "b".data "c".data [] rfl (by decide) (by decide)

/-- Claim C10: when the expected format is absent or contains no markup
character, `generate_with_format_validation` makes exactly one generation call,
returns its result, applies no validation and appends no instruction to the
prompt. -/
theorem C10_no_markup_single_call (gens : List (Option (List Char)))
    (prompt : List Char) (fmt : Option (List Char)) (r : List Char)
    (rest : List (Option (List Char)))
    (hfmt : fmt = none ∨ ∃ f, fmt = some f ∧ '<' ∉ f)
    (hg : gens = some r :: rest) :
    generate_with_format_validation gens prompt fmt = (prompt, 1, Except.ok r) := by
  subst hg
  rcases hfmt with rfl | ⟨f, rfl, hf⟩
  · simp [generate_with_format_validation, gwfvGo, callNext, validate_html_format]
  · have hcond : ¬ (f ≠ [] ∧ '<' ∈ f) := fun hh => hf hh.2
    simp [generate_with_format_validation, gwfvGo, callNext, validate_html_format, hcond]

/-- Witness for C10: the home-page video-heading reference example contains no
markup tag, so any first output is accepted unchanged after one call. -/
theorem C10_witness :
    generate_with_format_validation [some "Out".data] "p".data
        (some "**Transform** Your Experience".data) =
      ("p".data, 1, Except.ok "Out".data) :=
  C10_no_markup_single_call [some "Out".data] "p".data
    (some "**Transform** Your Experience".data) "Out".data []
    (Or.inr ⟨"**Transform** Your Experience".data, rfl, by decide⟩) rfl

/-- Claim C6: the JSON recovery step `fix_json_with_gpt` never raises: it
consumes exactly one completion-call outcome; when that call fails it returns
the original broken text unchanged, and when it succeeds it returns the
sanitized stripped model output (in both script variants). -/
theorem C6_fix_json_never_raises (resp : Except Unit (List Char))
    (broken ctx : List Char) (keys : List (List Char)) :
    (resp = Except.error () →
      Home.fix_json_with_gpt resp broken = broken ∧
      Product.fix_json_with_gpt resp broken ctx keys = broken) ∧
    (∀ r, resp = Except.ok r →
      Home.fix_json_with_gpt resp broken = Home.clean_json_response (pyStrip r) ∧
      Product.fix_json_with_gpt resp broken ctx keys =
        Product.clean_json_response (pyStrip r)) := by
  constructor
  · rintro rfl
    exact ⟨rfl, rfl⟩
  · rintro r rfl
    exact ⟨rfl, rfl⟩

/-- Witness for C6: a failing recovery call returns the broken text unchanged
in both scripts. -/
theorem C6_witness :
    Home.fix_json_with_gpt (Except.error ()) "bad json".data = "bad json".data ∧
    Product.fix_json_with_gpt (Except.error ()) "bad json".data "ctx".data [] =
      "bad json".data :=
  (C6_fix_json_never_raises (Except.error ()) "bad json".data "ctx".data []).1 rfl

/-- Counterexample for C7: a generation failure inside `translate_text` is not
propagated — the function catches it and returns the untranslated source text,
which is then substituted into the file by the translation step; the run
continues instead of aborting. -/
theorem C7_counterexample :
    translate_text (Except.error ()) "Shop".data = "Shop".data ∧
    Home.replace_in_file true true "a NEW_T b".data "NEW_T".data
        (translate_text (Except.error ()) "Shop".data) =
      Except.ok "a Shop b".data := by
  constructor
  · rfl
  · rfl

/-- Claim C7 as amended: `translate_text` performs a single completion call
with no retry loop; on failure it returns the source text unchanged (which the
orchestrator then substitutes), on success the stripped content with all
double quotes removed; the translation step never raises when file I/O
succeeds, so a generation failure never aborts the run. -/
theorem C7_amended (resp : Except Unit (List Char)) (text file token : List Char) :
    (resp = Except.error () → translate_text resp text = text) ∧
    (∀ r, resp = Except.ok r →
      translate_text resp text = pyReplace (pyStrip r) ['"'] []) ∧
    (∃ d, Home.replace_in_file true true file token (translate_text resp text) =
      Except.ok d) := by
  refine ⟨?_, ?_, ?_⟩
  · rintro rfl
    rfl
  · rintro r rfl
    rfl
  · exact ⟨_, rfl⟩

/-- Witness for C7: a failed call yields the English source text back. -/
theorem C7_witness : translate_text (Except.error ()) "Lookbook".data = "Lookbook".data :=
  (C7_amended (Except.error ()) "Lookbook".data [] []).1 rfl

/-- Claim C8: when the placeholder token does not occur in the file content,
`replace_in_file` leaves the content unchanged and does not raise, in both
script variants (with file I/O succeeding). -/
theorem C8_missing_placeholder_noop (data token content : List Char)
    (h : ¬ token <:+: data) :
    Home.replace_in_file true true data token content = Except.ok data ∧
    Product.replace_in_file true true data token content = Except.ok data := by
  constructor
  · simp [Home.replace_in_file, pyReplace_eq_self_of_no_occurrence data token content h]
  · simp [Product.replace_in_file, Product.replaceContent, h]

/-- Witness for C8: a file without the token is untouched by both variants. -/
theorem C8_witness :
    Home.replace_in_file true true "plain file".data "TOKEN".data "new".data =
      Except.ok "plain file".data ∧
    Product.replace_in_file true true "plain file".data "TOKEN".data "new".data =
      Except.ok "plain file".data :=
  C8_missing_placeholder_noop "plain file".data "TOKEN".data "new".data (by decide)

/-- Counterexample for C9: on the product-page path `replace_in_file` swallows
every exception, so an unreadable target file produces a normal return (file
unchanged), not a propagated IOError aborting the run. -/
theorem C9_counterexample :
    Product.replace_in_file false true "a".data "t".data "c".data =
      Except.ok "a".data := by
  rfl

/-- Claim C9 as amended: on the home-page path a read or write failure in
`replace_in_file` propagates to the caller and aborts the run, but on the
product-page path `replace_in_file` catches every exception and returns
normally, so I/O failure there never aborts the run. -/
theorem C9_amended (data token content : List Char) :
    (∀ w, Home.replace_in_file false w data token content = Except.error ()) ∧
    Home.replace_in_file true false data token content = Except.error () ∧
    (∀ r w, ∃ d, Product.replace_in_file r w data token content = Except.ok d) := by
  refine ⟨fun w => rfl, rfl, ?_⟩
  intro r w
  cases r <;> cases w <;>
    simp [Product.replace_in_file]

/-- Counterexample for C2: replacing the token `ab` by the empty string in
`aabb` yields `ab` — the leftover characters around the replaced occurrence
reassemble into the token, so the written file still contains an occurrence of
the token. -/
theorem C2_counterexample :
    Home.replace_in_file true true "aabb".data "ab".data [] = Except.ok "ab".data ∧
    "ab".data <:+: "ab".data := by
  exact ⟨rfl, by decide⟩

/-- Claim C2 as amended: after `replace_in_file` (I/O succeeding) the file's
content equals the prior content with every leftmost non-overlapping occurrence
of the token replaced, in the sense of Python `str.replace`: the prior content
splits into segments none of which contains the token, joined by the token, and
the new content is the same segments joined by the replacement.  The original
claim's guarantee that no occurrence of the token remains is false in general
(see the counterexample); it fails when the replacement contains the token or
when an occurrence reassembles across a replacement boundary. -/
theorem C2_substitution_exactness (data token content : List Char) (ht : token ≠ []) :
    ∃ segs, segs ≠ [] ∧
      Home.replace_in_file true true data token content =
        Except.ok (joinWith content segs) ∧
      data = joinWith token segs ∧
      ∀ s ∈ segs, ¬ token <:+: s := by
  obtain ⟨segs, hne, hrepl, hdata, hfree⟩ := pyReplace_segments data token content ht
  exact ⟨segs, hne, by simp [Home.replace_in_file, hrepl], hdata, hfree⟩

/-- Witness for C2: a concrete decomposition for one substitution. -/
theorem C2_witness :
    ∃ segs, segs ≠ [] ∧
      Home.replace_in_file true true "aTb".data "T".data "new".data =
        Except.ok (joinWith "new".data segs) ∧
      "aTb".data = joinWith "T".data segs ∧
      ∀ s ∈ segs, ¬ "T".data <:+: s :=
  C2_substitution_exactness "aTb".data "T".data "new".data (by decide)

/-- Claim C4: for a product-page `JsonObject` unit group whose sanitized
generation result does not parse, recovery is invoked once under the unit's
context label and reparsed; if that fails, recovery is invoked a second time
under the context label with `"_retry"` appended; if both recovery attempts
fail to yield parseable JSON the unit raises, aborting the run with zero
substitutions for that unit's fields, while the substitutions of previously
completed units remain in the file. -/
theorem C4_two_strike_recovery
    (parse : List Char → Option (List (List Char × List Char)))
    (fixOracle : List Char → Except Unit (List Char))
    (u1 u2 : Product.JsonUnit) (file f1 : List Char)
    (h1 : parse (Product.clean_json_response u2.genResult) = none)
    (h2 : parse (Product.fix_json_with_gpt (fixOracle u2.context) u2.genResult
            u2.context u2.expected_keys) = none)
    (h3 : parse (Product.fix_json_with_gpt (fixOracle (u2.context ++ retryLabel))
            u2.genResult (u2.context ++ retryLabel) u2.expected_keys) = none) :
    (∀ fl, Product.process_json_unit parse fixOracle u2 fl =
      ([u2.context, u2.context ++ retryLabel], fl, Except.error ())) ∧
    (Product.process_json_unit parse fixOracle u1 file = ([], f1, Except.ok ()) →
      Product.run_units parse fixOracle [u1, u2] file = (f1, Except.error ())) := by
  have hunit : ∀ fl, Product.process_json_unit parse fixOracle u2 fl =
      ([u2.context, u2.context ++ retryLabel], fl, Except.error ()) := by
    intro fl
    simp [Product.process_json_unit, h1, h2, h3]
  refine ⟨hunit, ?_⟩
  intro hu1
  simp [Product.run_units, hu1, hunit f1]

/-- Witness for C4: unit `c1` parses and substitutes its field; unit `c2`
fails to parse and both recovery calls fail, so the run aborts with the file
still holding the substitution made by `c1`. -/
theorem C4_witness :
    Product.run_units
      (fun s => if s = "G".data then some [("k".data, "v".data)] else none)
      (fun _ => Except.error ())
      [⟨"c1".data, [], [("k".data, "T".data)], "G".data⟩,
       ⟨"c2".data, [], [], "B".data⟩] "xTy".data = ("xvy".data, Except.error ()) :=
  (C4_two_strike_recovery
      (fun s => if s = "G".data then some [("k".data, "v".data)] else none)
      (fun _ => Except.error ())
      ⟨"c1".data, [], [("k".data, "T".data)], "G".data⟩
      ⟨"c2".data, [], [], "B".data⟩ "xTy".data "xvy".data
      (by rfl) (by rfl) (by rfl)).2 (by rfl)

theorem home_clean_eq_pyStrip (y : List Char) (hb : tick ∉ y)
    (hA : ¬ mangledQuoteToken <:+: y) :
    Home.clean_json_response y = pyStrip y := by
  show pyStrip (pyReplace (pyReplace (pyReplace (stripTrailingFence (stripJsonFence y))
      ['"'] ['"']) ['"'] ['"']) mangledQuoteToken ['\'']) = pyStrip y
  rw [stripJsonFence_eq_self y hb, stripTrailingFence_eq_self y hb,
    pyReplace_self y ['"'] (by simp), pyReplace_self y ['"'] (by simp),
    pyReplace_eq_self_of_no_occurrence y mangledQuoteToken ['\''] hA]

theorem prod_clean_eq_pyStrip (y : List Char) (hb : tick ∉ y) (hq : '\'' ∉ y) :
    Product.clean_json_response y = pyStrip y := by
  have hA : ¬ mangledQuoteToken <:+: y :=
    no_occurrence_of_mem_not_mem mangledQuoteToken y '\'' (by decide) hq
  show pyStrip (pyReplace (escQuotes none (pyReplace (pyReplace
      (stripTrailingFence (stripJsonFence y)) ['"'] ['"']) ['"'] ['"']))
      mangledQuoteToken ['\'']) = pyStrip y
  rw [stripJsonFence_eq_self y hb, stripTrailingFence_eq_self y hb,
    pyReplace_self y ['"'] (by simp), pyReplace_self y ['"'] (by simp),
    escQuotes_eq_self_of_not_mem y none hq,
    pyReplace_eq_self_of_no_occurrence y mangledQuoteToken ['\''] hA]

/-- Counterexample for C1: on six backticks both sanitizers return three
backticks, and a second application returns the empty string, so sanitization
is not idempotent. -/
theorem C1_counterexample :
    Home.clean_json_response (Home.clean_json_response "``````".data) ≠
      Home.clean_json_response "``````".data ∧
    Product.clean_json_response (Product.clean_json_response "``````".data) ≠
      Product.clean_json_response "``````".data := by
  decide

/-- Claim C1 as amended: the home-page sanitizer is idempotent on every input
containing no backtick and no occurrence of the mangled quote literal; the
product-page sanitizer is idempotent on every input containing no backtick and
no single quote.  (Backticks let a removed fence reassemble, the mangled
literal's replacement can reassemble another occurrence, and the product
escaping regex interacts with the quote replacement.) -/
theorem C1_sanitizer_idempotent (x : List Char) (hbt : tick ∉ x) :
    (¬ mangledQuoteToken <:+: x →
      Home.clean_json_response (Home.clean_json_response x) =
        Home.clean_json_response x) ∧
    ('\'' ∉ x →
      Product.clean_json_response (Product.clean_json_response x) =
        Product.clean_json_response x) := by
  constructor
  · intro hA
    have hb2 : tick ∉ pyStrip x := fun hm => hbt ((pyStrip_isInfix x).subset hm)
    have hA2 : ¬ mangledQuoteToken <:+: pyStrip x := fun hi => hA (hi.trans (pyStrip_isInfix x))
    rw [home_clean_eq_pyStrip x hbt hA, home_clean_eq_pyStrip (pyStrip x) hb2 hA2,
      pyStrip_idem]
  · intro hq
    have hq2 : '\'' ∉ pyStrip x := fun hm => hq ((pyStrip_isInfix x).subset hm)
    have hb2 : tick ∉ pyStrip x := fun hm => hbt ((pyStrip_isInfix x).subset hm)
    rw [prod_clean_eq_pyStrip x hbt hq, prod_clean_eq_pyStrip (pyStrip x) hb2 hq2,
      pyStrip_idem]

/-- Witness for C1: both sanitizers are idempotent on a concrete ordinary
response text. -/
theorem C1_witness :
    Home.clean_json_response (Home.clean_json_response "  ok text  ".data) =
      Home.clean_json_response "  ok text  ".data ∧
    Product.clean_json_response (Product.clean_json_response "  ok text  ".data) =
      Product.clean_json_response "  ok text  ".data :=
  ⟨(C1_sanitizer_idempotent "  ok text  ".data (by decide)).1 (by decide),
   (C1_sanitizer_idempotent "  ok text  ".data (by decide)).2 (by decide)⟩
